import Mathlib

/-!
Verification development for the pipe flat-pattern template generator
(Blender add-on, `pipe_template_generator.py`).

The numeric code of the add-on is embedded shallowly over `ℚ`: Python floats
become exact rationals, and the mathematical constant `math.pi` is threaded
through as an explicit parameter `pi : ℚ` so that every definition stays
computable.  Line numbers in the comments refer to
`src/Blender add-on/pipe_template_generator.py`.
-/

/- ============================================================
   Data model
   ============================================================ -/

/-- PipeSpec: the user inputs of `PipeTemplateProperties` (lines 37-93):
outer diameter `od` (mm), bend-radius multiplier `mult`, total bend angle
`angle` (degrees), segment count `segs`, wrap thickness `thick` (mm) and
tail overlap `ov` (mm). -/
structure PipeSpec where
  od : ℚ
  mult : ℚ
  angle : ℚ
  segs : ℕ
  thick : ℚ
  ov : ℚ
deriving DecidableEq

/-- The four physical dimensions computed in `extract_uv_data`
(lines 376-403): `baseW = base_circ`, `baseH = base_arc`,
`wrapW = wrap_width`, `wrapH = wrap_arc`. -/
structure PhysicalDimensions where
  baseW : ℚ
  baseH : ℚ
  wrapW : ℚ
  wrapH : ℚ
deriving DecidableEq

/- ============================================================
   Dimension calculator (extract_uv_data, lines 376-403)
   ============================================================ -/

/-- `math.radians(deg)`: degrees to radians, `deg * (pi / 180)`, with the
constant `pi` passed explicitly. -/
def radiansQ (pi deg : ℚ) : ℚ := deg * (pi / 180)

/-- The dimension calculation of `extract_uv_data`, lines 377-390, verbatim:

* `bend_centerline_radius = props.pipe_od * props.bend_radius_multiplier`
* `segment_angle_rad = math.radians(props.bend_angle / props.num_segments)`
* `base_circ = math.pi * props.pipe_od`
* `base_arc = bend_centerline_radius * segment_angle_rad`
* `pipe_radius = props.pipe_od / 2`; `wrap_radius = pipe_radius + props.wrap_thickness`
* `wrap_circ = 2 * math.pi * wrap_radius`; `wrap_width = wrap_circ + props.overlap`
* `wrap_distance = bend_centerline_radius + props.wrap_thickness`
* `wrap_arc = wrap_distance * segment_angle_rad`

It is a function of the spec alone: no mesh or UV data enters. -/
def calcDimensions (pi : ℚ) (s : PipeSpec) : PhysicalDimensions :=
  let bendCenterlineRadius := s.od * s.mult
  let segmentAngleRad := radiansQ pi (s.angle / (s.segs : ℚ))
  let baseCirc := pi * s.od
  let baseArc := bendCenterlineRadius * segmentAngleRad
  let pipeRadius := s.od / 2
  let wrapRadius := pipeRadius + s.thick
  let wrapCirc := 2 * pi * wrapRadius
  let wrapWidth := wrapCirc + s.ov
  let wrapDistance := bendCenterlineRadius + s.thick
  let wrapArc := wrapDistance * segmentAngleRad
  ⟨baseCirc, baseArc, wrapWidth, wrapArc⟩

/- ============================================================
   Layout planner (generate_pdf, lines 499-629)
   ============================================================ -/

/-- The four terminal layout modes of `generate_pdf`. -/
inductive LayoutMode where
  | singlePageStacked
  | singleMultipage
  | splitSamePage
  | splitSeparatePages
deriving DecidableEq

/-- Layout mode selection of `generate_pdf` (lines 499-629), in mm units:
`needs_width_split = wrap_w > available_width` (line 502) and
`total_height_needed = 2 * wrap_h + template_spacing` compared against
`available_height` (lines 529-531 and 581-584).  In the source
`template_spacing` is the constant 15 mm and `split_overlap` the constant
20 mm (line 499); both are kept as parameters here.  `splitOverlap` is
computed before the branch in the source but never influences the chosen
mode. -/
def layoutMode (wrapW wrapH printableW printableH spacing splitOverlap : ℚ) :
    LayoutMode :=
  if wrapW > printableW then
    if 2 * wrapH + spacing ≤ printableH then .splitSamePage
    else .splitSeparatePages
  else
    if 2 * wrapH + spacing ≤ printableH then .singlePageStacked
    else .singleMultipage

/-- The x-ranges of the LEFT and RIGHT halves of a split template,
from `_generate_split_separate_pages` lines 993-995 and 1012/1041-1042
(`_generate_split_same_page` lines 893-896 computes the same ranges):
`center_w = wrap_w / 2`; LEFT covers `0 .. center_w + split_overlap`,
RIGHT covers `center_w - split_overlap .. wrap_w`. -/
def splitRanges (wrapW splitOverlap : ℚ) : (ℚ × ℚ) × (ℚ × ℚ) :=
  let centerW := wrapW / 2
  ((0, centerW + splitOverlap), (centerW - splitOverlap, wrapW))

/-- The clipping guard applied to each boundary edge when drawing one half
of a split template, `_draw_split_half` lines 1117-1122 and
`_draw_split_page` lines 1532-1537 (the same four-way disjunction appears
verbatim in both, for the base and the wrap outline):

`x_start <= x1 <= x_end or x_start <= x2 <= x_end or
 (x1 < x_start and x2 > x_end) or (x2 < x_start and x1 > x_end)`. -/
def clipKeep (xStart xEnd x1 x2 : ℚ) : Bool :=
  decide (xStart ≤ x1 ∧ x1 ≤ xEnd) || decide (xStart ≤ x2 ∧ x2 ≤ xEnd) ||
    decide (x1 < xStart ∧ x2 > xEnd) || decide (x2 < xStart ∧ x1 > xEnd)

/-- UV normalization used in every outline-drawing path
(`_generate_single_page` lines 724-731, `_draw_split_half` lines 1106-1109,
`_draw_single_template_page` lines 1348-1351, `_draw_split_page`
lines 1521-1524): `(val - lo) / (hi - lo) if (hi - lo) > 0 else 0`. -/
def normCoord (val lo hi : ℚ) : ℚ :=
  if hi - lo > 0 then (val - lo) / (hi - lo) else 0

/- ============================================================
   Boundary extractor (extract_uv_data, lines 340-374 and 405-411)
   ============================================================ -/

/-- A 2D UV coordinate `[uv.x, uv.y]` (line 346). -/
abbrev UVPoint : Type := ℚ × ℚ

/-- One per-face UV polygon: an ordered list of UV coordinates
(lines 341-347). -/
abbrev UVPolygon : Type := List UVPoint

/-- Python `<` on coordinate pairs (lexicographic tuple comparison), as
used by `sorted([v1, v2])` on line 364. -/
def lexLt (a b : UVPoint) : Bool :=
  decide (a.1 < b.1) || (decide (a.1 = b.1) && decide (a.2 < b.2))

/-- `tuple(sorted([v1, v2]))` on line 364: the two endpoints in
nondecreasing lexicographic order (a two-element stable sort swaps exactly
when `v2 < v1`). -/
def edgeSorted (a b : UVPoint) : UVPoint × UVPoint :=
  if lexLt b a then (b, a) else (a, b)

/-- The undirected key of a directed edge. -/
def keyOf (e : UVPoint × UVPoint) : UVPoint × UVPoint := edgeSorted e.1 e.2

/-- The directed edges of one polygon with wraparound (lines 361-363:
`v1 = poly_uvs[i]`, `v2 = poly_uvs[(i + 1) % num_verts]`). -/
def polyEdges (p : UVPolygon) : List (UVPoint × UVPoint) :=
  p.zip (p.rotate 1)

/-- All directed edges of all polygons, in polygon iteration order
(lines 359-363). -/
def allEdges (polys : List UVPolygon) : List (UVPoint × UVPoint) :=
  polys.flatMap polyEdges

/-- `edge_count[edge_sorted]`: the number of directed occurrences of an
undirected key (line 365). -/
def edgeCount (polys : List UVPolygon) (k : UVPoint × UVPoint) : ℕ :=
  (allEdges polys).countP (fun e => decide (keyOf e = k))

/-- `edge_order[edge_sorted]`: the first-seen directed orientation of a
key (lines 366-367). -/
def firstDir (polys : List UVPolygon) (k : UVPoint × UVPoint) :
    Option (UVPoint × UVPoint) :=
  (allEdges polys).find? (fun e => decide (keyOf e = k))

/-- Python dict key insertion: a key joins the key list on first sight and
keeps its position afterwards. -/
def insertNew (ks : List (UVPoint × UVPoint)) (k : UVPoint × UVPoint) :
    List (UVPoint × UVPoint) :=
  if k ∈ ks then ks else ks ++ [k]

/-- The keys of `edge_count` in insertion order (Python dicts preserve
first-insertion order, lines 357-367). -/
def dictKeys (es : List (UVPoint × UVPoint)) : List (UVPoint × UVPoint) :=
  es.foldl (fun ks e => insertNew ks (keyOf e)) []

/-- `boundary_edges` (lines 370-374): for every key with occurrence count
exactly 1, emit the stored first-seen directed orientation, iterating the
count dict in key-insertion order.  Keys with any other count, including
counts above 2, are silently skipped: the source has no non-manifold
rejection path. -/
def boundaryEdges (polys : List UVPolygon) : List (UVPoint × UVPoint) :=
  (dictKeys (allEdges polys)).filterMap
    (fun k => if edgeCount polys k = 1 then firstDir polys k else none)

/-- `all_uvs` (line 350): every vertex of every polygon. -/
def allVerts (polys : List UVPolygon) : List UVPoint := polys.flatten

/-- Python `min` over a nonempty list (line 351-354); the source raises on
an empty list, the `[]` case here is unreachable under the theorems'
hypotheses. -/
def listMin : List ℚ → ℚ
  | [] => 0
  | x :: xs => xs.foldl min x

/-- Python `max` over a nonempty list (line 351-354). -/
def listMax : List ℚ → ℚ
  | [] => 0
  | x :: xs => xs.foldl max x

/-- The `boundary_data` dict returned by `extract_uv_data`
(lines 405-411): boundary edges plus the UV bounding box. -/
structure BoundaryData where
  bEdges : List (UVPoint × UVPoint)
  min_u : ℚ
  max_u : ℚ
  min_v : ℚ
  max_v : ℚ

/-- Assembles `boundary_data` from the polygons: boundary edges together
with `min_u = min(uv[0])`, `max_u = max(uv[0])`, `min_v = min(uv[1])`,
`max_v = max(uv[1])` over `all_uvs` (lines 349-354, 405-411). -/
def extractBoundaryData (polys : List UVPolygon) : BoundaryData :=
  ⟨boundaryEdges polys,
   listMin ((allVerts polys).map Prod.fst),
   listMax ((allVerts polys).map Prod.fst),
   listMin ((allVerts polys).map Prod.snd),
   listMax ((allVerts polys).map Prod.snd)⟩

/-- A non-manifold polygon collection: three triangles share the edge from
`(0,0)` to `(1,0)`, so that undirected key occurs 3 times. -/
def polysNM : List UVPolygon :=
  [[(0, 0), (1, 0), (0, 1)], [(0, 0), (1, 0), (1, 1)], [(0, 0), (1, 0), (2, 1)]]

/-- A single UV triangle, used as a concrete witness input. -/
def polysW : List UVPolygon := [[(0, 0), (1, 0), (0, 1)]]

/- ============================================================
   Seam selector (unwrap_pipe_segment, lines 243-279)
   ============================================================ -/

/-- A mesh vertex as the seam selector reads it: its z-coordinate `v.co.z`
and its derived planar radius `r`, embedding
`math.sqrt(v.co.x**2 + v.co.y**2)` (lines 255, 269-270): the seam logic
consumes coordinates only through `z` and this radius. -/
structure Vert where
  z : ℚ
  r : ℚ
deriving DecidableEq

/-- One step of the minimum-radius scan (lines 253-257:
`min_radius = float("inf")`, then `if radius < min_radius`); the running
state is `none` before the first vertex, embedding the `inf` start. -/
def minRadStep (m : Option ℚ) (v : Vert) : Option ℚ :=
  match m with
  | none => some v.r
  | some m0 => if v.r < m0 then some v.r else some m0

/-- The global minimum planar radius over all vertices (lines 253-257). -/
def minRad (vs : List Vert) : Option ℚ := vs.foldl minRadStep none

/-- The seam-marking condition for an edge with endpoints `a`, `b`
(lines 260-277): both `abs(z) < 0.5` (z_tolerance) and both
`abs(r - min_radius) < 1.0` (radius_tolerance). -/
def seamEdge (vs : List Vert) (a b : Vert) : Bool :=
  match minRad vs with
  | none => false
  | some m =>
      decide (|a.z| < 1 / 2) && decide (|b.z| < 1 / 2) &&
        (decide (|a.r - m| < 1) && decide (|b.r - m| < 1))

/- ============================================================
   Filename construction (generate_pdf, lines 505-515)
   ============================================================ -/

/-- Round half to even, the rounding applied by Python fixed-point float
formatting (`:.1f`, `:.2f`) to the exact value being printed. -/
def rhe (q : ℚ) : ℤ :=
  let f : ℤ := ⌊q⌋
  let r : ℚ := q - (f : ℚ)
  if r < 1 / 2 then f
  else if 1 / 2 < r then f + 1
  else if f % 2 = 0 then f else f + 1

/-- The decimal digit bytes of a natural number, most significant first
(ASCII 48..57), as Python `str`/`format` renders a nonnegative integer. -/
def natBytes (n : ℕ) : List ℕ :=
  if n = 0 then [48] else ((Nat.digits 10 n).reverse).map (fun d => 48 + d)

/-- Rendering of a one-decimal fixed-point value from its rounded number
of tenths `z`: integer digits, `.` (byte 46), one fraction digit. -/
def render1 (z : ℕ) : List ℕ :=
  natBytes (z / 10) ++ [46, 48 + z % 10]

/-- Rendering of a two-decimal fixed-point value from its rounded number
of hundredths `z`: integer digits, `.`, two fraction digits. -/
def render2 (z : ℕ) : List ℕ :=
  natBytes (z / 100) ++ [46, 48 + z / 10 % 10, 48 + z % 10]

/-- Python `f"{q:.1f}"` for the nonnegative parameters of a valid spec. -/
def fmt1 (q : ℚ) : List ℕ := render1 (rhe (q * 10)).toNat

/-- Python `f"{q:.2f}"` for the nonnegative parameters of a valid spec. -/
def fmt2 (q : ℚ) : List ℕ := render2 (rhe (q * 100)).toNat

/-- ASCII bytes of the literal `exhaust_wrap_OD` (line 513). -/
def odTag : List ℕ :=
  [101, 120, 104, 97, 117, 115, 116, 95, 119, 114, 97, 112, 95, 79, 68]

/-- ASCII bytes of the literal `_CLR` (line 513). -/
def clrTag : List ℕ := [95, 67, 76, 82]

/-- ASCII bytes of the literal `_S` (line 513). -/
def sTag : List ℕ := [95, 83]

/-- ASCII bytes of the literal `_O` (line 514). -/
def oTag : List ℕ := [95, 79]

/-- ASCII bytes of the literal `_MT` (line 514). -/
def mtTag : List ℕ := [95, 77, 84]

/-- ASCII bytes of the literal `.pdf` (line 514). -/
def pdfTag : List ℕ := [46, 112, 100, 102]

/-- The output filename of `generate_pdf` (lines 505-515) as its ASCII
byte sequence:
`f"exhaust_wrap_OD{od:.1f}_CLR{clr:.1f}_S{segments}_O{overlap:.1f}_MT{mat_thickness:.2f}.pdf"`. -/
def buildFilename (od clr : ℚ) (segs : ℕ) (ov mt : ℚ) : List ℕ :=
  odTag ++ fmt1 od ++ clrTag ++ fmt1 clr ++ sTag ++ natBytes segs ++
    oTag ++ fmt1 ov ++ mtTag ++ fmt2 mt ++ pdfTag

/-- The information the filename actually carries: each float parameter
after fixed-point rounding (tenths for diameter, multiplier and overlap;
hundredths for thickness) plus the exact segment count. -/
def filenameCode (od clr : ℚ) (segs : ℕ) (ov mt : ℚ) : ℕ × ℕ × ℕ × ℕ × ℕ :=
  ((rhe (od * 10)).toNat, (rhe (clr * 10)).toNat, segs,
    (rhe (ov * 10)).toNat, (rhe (mt * 100)).toNat)

/-- The filename generated for a spec, as `generate_pdf` builds it from
`props` (lines 505-515). -/
def filenameOf (s : PipeSpec) : List ℕ :=
  buildFilename s.od s.mult s.segs s.ov s.thick

/-- A spec with diameter 10.01 mm (all other parameters at plausible
values). -/
def specCex1 : PipeSpec := ⟨1001 / 100, 3 / 2, 90, 5, 123 / 20, 10⟩

/-- The same spec except the diameter is 10.04 mm: distinct from
`specCex1`, but both diameters print as `10.0` at one decimal. -/
def specCex2 : PipeSpec := ⟨1004 / 100, 3 / 2, 90, 5, 123 / 20, 10⟩

/- ============================================================
   Theorems
   ============================================================ -/

/-- C1: for every PipeSpec the dimension calculation returns exactly
`base_width = pi * pipe_od`,
`base_height = (pipe_od * bend_radius_multiplier) * radians(bend_angle / num_segments)`,
`wrap_width = 2 * pi * (pipe_od / 2 + wrap_thickness) + overlap` and
`wrap_height = (pipe_od * bend_radius_multiplier + wrap_thickness) *
radians(bend_angle / num_segments)`, as a pure function of the spec
(`calcDimensions` takes no mesh or UV input). -/
theorem c1_dimension_formulas (pi : ℚ) (s : PipeSpec) :
    calcDimensions pi s =
      ⟨pi * s.od,
       s.od * s.mult * radiansQ pi (s.angle / (s.segs : ℚ)),
       2 * pi * (s.od / 2 + s.thick) + s.ov,
       (s.od * s.mult + s.thick) * radiansQ pi (s.angle / (s.segs : ℚ))⟩ :=
  rfl

/-- C4: layout mode selection is the pure function `layoutMode` of
(wrap_width, wrap_height, printable_width, printable_height, spacing,
split_overlap); with `needs_width_split = wrap_width > printable_width`
and `stack_height = 2 * wrap_height + spacing` it yields
SINGLE_PAGE_STACKED when not split and the stack fits,
SINGLE_MULTIPAGE when not split otherwise, SPLIT_SAME_PAGE when split and
the stack fits, and SPLIT_SEPARATE_PAGES when split otherwise. -/
theorem c4_layout_mode_selection
    (wrapW wrapH printableW printableH spacing splitOverlap : ℚ) :
    (¬ wrapW > printableW → 2 * wrapH + spacing ≤ printableH →
      layoutMode wrapW wrapH printableW printableH spacing splitOverlap =
        .singlePageStacked) ∧
    (¬ wrapW > printableW → ¬ 2 * wrapH + spacing ≤ printableH →
      layoutMode wrapW wrapH printableW printableH spacing splitOverlap =
        .singleMultipage) ∧
    (wrapW > printableW → 2 * wrapH + spacing ≤ printableH →
      layoutMode wrapW wrapH printableW printableH spacing splitOverlap =
        .splitSamePage) ∧
    (wrapW > printableW → ¬ 2 * wrapH + spacing ≤ printableH →
      layoutMode wrapW wrapH printableW printableH spacing splitOverlap =
        .splitSeparatePages) := by
  refine ⟨fun h1 h2 => ?_, fun h1 h2 => ?_, fun h1 h2 => ?_, fun h1 h2 => ?_⟩ <;>
    · unfold layoutMode
      first
        | rw [if_neg h1, if_pos h2]
        | rw [if_neg h1, if_neg h2]
        | rw [if_pos h1, if_pos h2]
        | rw [if_pos h1, if_neg h2]

/-- Witness for C4 at scenario 3 of the spec: wrap 288×36 mm on a
280×150 mm printable area with 15 mm spacing selects SPLIT_SAME_PAGE. -/
theorem c4_layout_mode_selection_witness :
    layoutMode 288 36 280 150 15 20 = .splitSamePage :=
  (c4_layout_mode_selection 288 36 280 150 15 20).2.2.1 (by norm_num)
    (by norm_num)

/-- C5: for wrap_width `W > 0` and split_overlap `s > 0` the LEFT half
covers `[0, W/2 + s]`, the RIGHT half `[W/2 - s, W]`, each of width
`W/2 + s`; the sum of the two widths minus the double-counted overlap band
of width `2*s` is exactly `W`; every point of `[0, W]` lies in one of the
halves, and (whenever the overlap does not exceed the half-width, as in
every split run of the source where `W` exceeds the page) the set union of
the two ranges is exactly `[0, W]`. -/
theorem c5_split_ranges (W s : ℚ) (hW : 0 < W) (hs : 0 < s) :
    (splitRanges W s).1.1 = 0 ∧
    (splitRanges W s).1.2 = W / 2 + s ∧
    (splitRanges W s).2.1 = W / 2 - s ∧
    (splitRanges W s).2.2 = W ∧
    (splitRanges W s).1.2 - (splitRanges W s).1.1 = W / 2 + s ∧
    (splitRanges W s).2.2 - (splitRanges W s).2.1 = W / 2 + s ∧
    ((splitRanges W s).1.2 - (splitRanges W s).1.1) +
        ((splitRanges W s).2.2 - (splitRanges W s).2.1) - 2 * s = W ∧
    Set.Icc (0 : ℚ) W ⊆
      Set.Icc (splitRanges W s).1.1 (splitRanges W s).1.2 ∪
        Set.Icc (splitRanges W s).2.1 (splitRanges W s).2.2 ∧
    (s ≤ W / 2 →
      Set.Icc (splitRanges W s).1.1 (splitRanges W s).1.2 ∪
          Set.Icc (splitRanges W s).2.1 (splitRanges W s).2.2 =
        Set.Icc 0 W) := by
  have e1 : (splitRanges W s).1.1 = 0 := rfl
  have e2 : (splitRanges W s).1.2 = W / 2 + s := rfl
  have e3 : (splitRanges W s).2.1 = W / 2 - s := rfl
  have e4 : (splitRanges W s).2.2 = W := rfl
  rw [e1, e2, e3, e4]
  refine ⟨rfl, rfl, rfl, rfl, by ring, by ring, by ring, ?_, ?_⟩
  · intro x hx
    simp only [Set.mem_Icc] at hx
    rcases le_or_lt x (W / 2 + s) with h | h
    · exact Or.inl (Set.mem_Icc.mpr ⟨hx.1, h⟩)
    · exact Or.inr (Set.mem_Icc.mpr ⟨by linarith, hx.2⟩)
  · intro hsW
    ext x
    simp only [Set.mem_union, Set.mem_Icc]
    constructor
    · rintro (⟨h1, h2⟩ | ⟨h1, h2⟩)
      · exact ⟨h1, by linarith⟩
      · exact ⟨by linarith, h2⟩
    · rintro ⟨h1, h2⟩
      rcases le_or_lt x (W / 2 + s) with h | h
      · exact Or.inl ⟨h1, h⟩
      · exact Or.inr ⟨by linarith, h2⟩

/-- Witness for C5 at scenario 2/3 of the spec: wrap_width 288, split
overlap 20. -/
theorem c5_split_ranges_witness :
    (0 : ℚ) < 288 ∧ (0 : ℚ) < 20 ∧
    ((splitRanges 288 20).1.1 = 0 ∧
     (splitRanges 288 20).1.2 = 288 / 2 + 20 ∧
     (splitRanges 288 20).2.1 = 288 / 2 - 20 ∧
     (splitRanges 288 20).2.2 = 288 ∧
     (splitRanges 288 20).1.2 - (splitRanges 288 20).1.1 = 288 / 2 + 20 ∧
     (splitRanges 288 20).2.2 - (splitRanges 288 20).2.1 = 288 / 2 + 20 ∧
     ((splitRanges 288 20).1.2 - (splitRanges 288 20).1.1) +
         ((splitRanges 288 20).2.2 - (splitRanges 288 20).2.1) - 2 * 20 = 288 ∧
     Set.Icc (0 : ℚ) 288 ⊆
       Set.Icc (splitRanges 288 20).1.1 (splitRanges 288 20).1.2 ∪
         Set.Icc (splitRanges 288 20).2.1 (splitRanges 288 20).2.2 ∧
     ((20 : ℚ) ≤ 288 / 2 →
       Set.Icc (splitRanges 288 20).1.1 (splitRanges 288 20).1.2 ∪
           Set.Icc (splitRanges 288 20).2.1 (splitRanges 288 20).2.2 =
         Set.Icc 0 288)) :=
  ⟨by norm_num, by norm_num, c5_split_ranges 288 20 (by norm_num) (by norm_num)⟩

/-- C6: an edge with rescaled endpoint x-coordinates `x1`, `x2` passes the
split-section clipping guard for window `[xStart, xEnd]` exactly when one
endpoint lies in the window or both endpoints lie strictly outside it on
opposite sides; in particular a spanning edge is kept. -/
theorem c6_clip_rule (xStart xEnd x1 x2 : ℚ) :
    clipKeep xStart xEnd x1 x2 = true ↔
      (x1 ∈ Set.Icc xStart xEnd ∨ x2 ∈ Set.Icc xStart xEnd ∨
        (x1 < xStart ∧ xEnd < x2) ∨ (x2 < xStart ∧ xEnd < x1)) := by
  simp [clipKeep, Set.mem_Icc, gt_iff_lt, or_assoc]

/-- C7: for every valid PipeSpec with positive wrap thickness the wrap
dimensions strictly dominate the base dimensions. -/
theorem c7_wrap_dominates (pi : ℚ) (s : PipeSpec) (hpi : 0 < pi)
    (hod : 0 < s.od) (hmult : 0 < s.mult) (hangle : 0 < s.angle)
    (hsegs : 0 < s.segs) (ht : 0 < s.thick) (hov : 0 ≤ s.ov) :
    (calcDimensions pi s).baseW < (calcDimensions pi s).wrapW ∧
    (calcDimensions pi s).baseH < (calcDimensions pi s).wrapH := by
  have hsegsQ : (0 : ℚ) < (s.segs : ℚ) := by exact_mod_cast hsegs
  have hrad : 0 < radiansQ pi (s.angle / (s.segs : ℚ)) := by
    unfold radiansQ
    exact mul_pos (div_pos hangle hsegsQ) (div_pos hpi (by norm_num))
  constructor
  · show pi * s.od < 2 * pi * (s.od / 2 + s.thick) + s.ov
    have hpt : 0 < pi * s.thick := mul_pos hpi ht
    nlinarith
  · show s.od * s.mult * radiansQ pi (s.angle / (s.segs : ℚ)) <
      (s.od * s.mult + s.thick) * radiansQ pi (s.angle / (s.segs : ℚ))
    exact mul_lt_mul_of_pos_right (lt_add_of_pos_right _ ht) hrad

/-- The default spec of the add-on UI: OD 76.2 mm, multiplier 1.5,
bend 90 degrees, 5 segments, thickness 6.15 mm, overlap 10 mm. -/
def defaultSpec : PipeSpec := ⟨381 / 5, 3 / 2, 90, 5, 123 / 20, 10⟩

/-- Witness for C7 at the default spec, with `pi` instantiated at 3. -/
theorem c7_wrap_dominates_witness :
    (0 : ℚ) < 3 ∧ 0 < defaultSpec.od ∧ 0 < defaultSpec.mult ∧
    0 < defaultSpec.angle ∧ 0 < defaultSpec.segs ∧ 0 < defaultSpec.thick ∧
    0 ≤ defaultSpec.ov ∧
    ((calcDimensions 3 defaultSpec).baseW < (calcDimensions 3 defaultSpec).wrapW ∧
     (calcDimensions 3 defaultSpec).baseH < (calcDimensions 3 defaultSpec).wrapH) :=
  ⟨by norm_num, by norm_num [defaultSpec], by norm_num [defaultSpec],
   by norm_num [defaultSpec], by norm_num [defaultSpec],
   by norm_num [defaultSpec], by norm_num [defaultSpec],
   c7_wrap_dominates 3 defaultSpec (by norm_num) (by norm_num [defaultSpec])
     (by norm_num [defaultSpec]) (by norm_num [defaultSpec])
     (by norm_num [defaultSpec]) (by norm_num [defaultSpec])
     (by norm_num [defaultSpec])⟩

/-- C10: UV normalization is total: on a degenerate bounding-box axis
(`hi = lo`) the normalized coordinate is 0 rather than a division by a
zero-width range, in every outline-drawing path (all four drawing routines
use this same guarded expression). -/
theorem c10_normalization_total (val lo hi : ℚ) (h : hi = lo) :
    normCoord val lo hi = 0 := by
  simp [normCoord, h]

/-- Witness for C10: a degenerate axis with `lo = hi = 2` normalizes 7
to 0. -/
theorem c10_normalization_total_witness :
    (2 : ℚ) = 2 ∧ normCoord 7 2 2 = 0 :=
  ⟨rfl, c10_normalization_total 7 2 2 rfl⟩

/-- Membership in a dict-style key insertion. -/
theorem mem_insertNew {ks : List (UVPoint × UVPoint)}
    {k k0 : UVPoint × UVPoint} :
    k ∈ insertNew ks k0 ↔ k ∈ ks ∨ k = k0 := by
  unfold insertNew
  by_cases h : k0 ∈ ks
  · rw [if_pos h]
    constructor
    · exact fun hk => Or.inl hk
    · rintro (hk | rfl)
      · exact hk
      · exact h
  · rw [if_neg h]
    simp [List.mem_append]

/-- Membership in the key-accumulating fold of `dictKeys`. -/
theorem mem_foldl_insertNew (es : List (UVPoint × UVPoint)) :
    ∀ (acc : List (UVPoint × UVPoint)) (k : UVPoint × UVPoint),
      k ∈ es.foldl (fun ks e => insertNew ks (keyOf e)) acc ↔
        k ∈ acc ∨ ∃ e ∈ es, keyOf e = k := by
  induction es with
  | nil => intro acc k; simp
  | cons e es ih =>
    intro acc k
    rw [List.foldl_cons, ih]
    constructor
    · rintro (h | ⟨e1, he1, hk⟩)
      · rcases mem_insertNew.mp h with h2 | rfl
        · exact Or.inl h2
        · exact Or.inr ⟨e, List.mem_cons_self e es, rfl⟩
      · exact Or.inr ⟨e1, List.mem_cons_of_mem e he1, hk⟩
    · rintro (h | ⟨e1, he1, hk⟩)
      · exact Or.inl (mem_insertNew.mpr (Or.inl h))
      · rcases List.mem_cons.mp he1 with rfl | he2
        · exact Or.inl (mem_insertNew.mpr (Or.inr hk.symm))
        · exact Or.inr ⟨e1, he2, hk⟩

/-- A key is recorded exactly when some directed edge produces it. -/
theorem mem_dictKeys (es : List (UVPoint × UVPoint)) (k : UVPoint × UVPoint) :
    k ∈ dictKeys es ↔ ∃ e ∈ es, keyOf e = k := by
  unfold dictKeys
  rw [mem_foldl_insertNew]
  simp

/-- Characterization of the emitted boundary edges: a directed edge is
output exactly when its undirected key occurs once and the edge is the
stored first-seen orientation of that key. -/
theorem mem_boundaryEdges (polys : List UVPolygon) (e : UVPoint × UVPoint) :
    e ∈ boundaryEdges polys ↔
      edgeCount polys (keyOf e) = 1 ∧ firstDir polys (keyOf e) = some e := by
  unfold boundaryEdges
  rw [List.mem_filterMap]
  constructor
  · rintro ⟨k, hk, hfk⟩
    by_cases hc : edgeCount polys k = 1
    · rw [if_pos hc] at hfk
      have hkey : keyOf e = k := by
        have h := List.find?_some hfk
        simpa using h
      subst hkey
      exact ⟨hc, hfk⟩
    · rw [if_neg hc] at hfk
      simp at hfk
  · rintro ⟨hc, hf⟩
    refine ⟨keyOf e, ?_, ?_⟩
    · have hpos : 0 < edgeCount polys (keyOf e) := by omega
      unfold edgeCount at hpos
      rw [List.countP_pos_iff] at hpos
      obtain ⟨e1, he1, hpe⟩ := hpos
      have hkey : keyOf e1 = keyOf e := by simpa using hpe
      exact (mem_dictKeys _ _).mpr ⟨e1, he1, hkey⟩
    · rw [if_pos hc]
      exact hf

/-- A left fold by `min` never exceeds its initial value. -/
theorem foldl_min_le_init (l : List ℚ) (c : ℚ) : l.foldl min c ≤ c := by
  induction l generalizing c with
  | nil => simp
  | cons x xs ih =>
    rw [List.foldl_cons]
    exact le_trans (ih (min c x)) (min_le_left c x)

/-- A left fold by `min` never exceeds a list element. -/
theorem foldl_min_le_of_mem {l : List ℚ} {x : ℚ} (c : ℚ) (h : x ∈ l) :
    l.foldl min c ≤ x := by
  induction l generalizing c with
  | nil => cases h
  | cons y ys ih =>
    rw [List.foldl_cons]
    rcases List.mem_cons.mp h with rfl | h2
    · exact le_trans (foldl_min_le_init ys (min c x)) (min_le_right c x)
    · exact ih (min c y) h2

/-- A left fold by `min` is attained at the initial value or in the list. -/
theorem foldl_min_init_or_mem (l : List ℚ) (c : ℚ) :
    l.foldl min c = c ∨ l.foldl min c ∈ l := by
  induction l generalizing c with
  | nil => exact Or.inl rfl
  | cons x xs ih =>
    rw [List.foldl_cons]
    rcases ih (min c x) with h | h
    · rcases min_choice c x with hm | hm
      · exact Or.inl (h.trans hm)
      · exact Or.inr (by rw [h, hm]; exact List.mem_cons_self x xs)
    · exact Or.inr (List.mem_cons_of_mem x h)

/-- `listMin` is a lower bound of its list. -/
theorem listMin_le_of_mem {l : List ℚ} {x : ℚ} (h : x ∈ l) : listMin l ≤ x := by
  cases l with
  | nil => cases h
  | cons y ys =>
    show ys.foldl min y ≤ x
    rcases List.mem_cons.mp h with rfl | h2
    · exact foldl_min_le_init ys x
    · exact foldl_min_le_of_mem y h2

/-- `listMin` of a nonempty list is one of its elements. -/
theorem listMin_mem {l : List ℚ} (h : l ≠ []) : listMin l ∈ l := by
  cases l with
  | nil => exact absurd rfl h
  | cons y ys =>
    show ys.foldl min y ∈ y :: ys
    rcases foldl_min_init_or_mem ys y with h2 | h2
    · rw [h2]
      exact List.mem_cons_self y ys
    · exact List.mem_cons_of_mem y h2

/-- A left fold by `max` dominates its initial value. -/
theorem foldl_max_init_le (l : List ℚ) (c : ℚ) : c ≤ l.foldl max c := by
  induction l generalizing c with
  | nil => simp
  | cons x xs ih =>
    rw [List.foldl_cons]
    exact le_trans (le_max_left c x) (ih (max c x))

/-- A left fold by `max` dominates every list element. -/
theorem foldl_max_ge_of_mem {l : List ℚ} {x : ℚ} (c : ℚ) (h : x ∈ l) :
    x ≤ l.foldl max c := by
  induction l generalizing c with
  | nil => cases h
  | cons y ys ih =>
    rw [List.foldl_cons]
    rcases List.mem_cons.mp h with rfl | h2
    · exact le_trans (le_max_right c x) (foldl_max_init_le ys (max c x))
    · exact ih (max c y) h2

/-- A left fold by `max` is attained at the initial value or in the list. -/
theorem foldl_max_init_or_mem (l : List ℚ) (c : ℚ) :
    l.foldl max c = c ∨ l.foldl max c ∈ l := by
  induction l generalizing c with
  | nil => exact Or.inl rfl
  | cons x xs ih =>
    rw [List.foldl_cons]
    rcases ih (max c x) with h | h
    · rcases max_choice c x with hm | hm
      · exact Or.inl (h.trans hm)
      · exact Or.inr (by rw [h, hm]; exact List.mem_cons_self x xs)
    · exact Or.inr (List.mem_cons_of_mem x h)

/-- `listMax` is an upper bound of its list. -/
theorem listMax_ge_of_mem {l : List ℚ} {x : ℚ} (h : x ∈ l) : x ≤ listMax l := by
  cases l with
  | nil => cases h
  | cons y ys =>
    show x ≤ ys.foldl max y
    rcases List.mem_cons.mp h with rfl | h2
    · exact foldl_max_init_le ys x
    · exact foldl_max_ge_of_mem y h2

/-- `listMax` of a nonempty list is one of its elements. -/
theorem listMax_mem {l : List ℚ} (h : l ≠ []) : listMax l ∈ l := by
  cases l with
  | nil => exact absurd rfl h
  | cons y ys =>
    show ys.foldl max y ∈ y :: ys
    rcases foldl_max_init_or_mem ys y with h2 | h2
    · rw [h2]
      exact List.mem_cons_self y ys
    · exact List.mem_cons_of_mem y h2

/-- C2: the source has no non-manifold rejection: on an input whose key
`((0,0),(1,0))` occurs three times (three triangles sharing that edge),
boundary extraction still succeeds and emits the six count-1 edges instead
of failing.  This contradicts the claim that inputs with an edge count
above 2 are rejected; the spec states the rejection requirement and the
code omits it. -/
theorem c2_nonmanifold_not_rejected :
    edgeCount polysNM (keyOf ((0, 0), (1, 0))) = 3 ∧
    (boundaryEdges polysNM).length = 6 := by decide

/-- C3: for every non-empty collection of (non-empty) UV polygons the
extraction returns exactly the edges whose undirected occurrence count is
1, each in the directed orientation of its first occurrence in polygon
iteration order, together with the (min,max) bounding box over both
coordinate axes of all polygon vertices (each bound is attained by and
bounds the vertex set). -/
theorem c3_boundary_and_bbox (polys : List UVPolygon) (h1 : polys ≠ [])
    (h2 : ∀ p ∈ polys, p ≠ []) :
    (∀ e : UVPoint × UVPoint, e ∈ (extractBoundaryData polys).bEdges ↔
        edgeCount polys (keyOf e) = 1 ∧ firstDir polys (keyOf e) = some e) ∧
    (∀ q ∈ allVerts polys,
        (extractBoundaryData polys).min_u ≤ q.1 ∧
        q.1 ≤ (extractBoundaryData polys).max_u ∧
        (extractBoundaryData polys).min_v ≤ q.2 ∧
        q.2 ≤ (extractBoundaryData polys).max_v) ∧
    (∃ q ∈ allVerts polys, q.1 = (extractBoundaryData polys).min_u) ∧
    (∃ q ∈ allVerts polys, q.1 = (extractBoundaryData polys).max_u) ∧
    (∃ q ∈ allVerts polys, q.2 = (extractBoundaryData polys).min_v) ∧
    (∃ q ∈ allVerts polys, q.2 = (extractBoundaryData polys).max_v) := by
  have hne : allVerts polys ≠ [] := by
    intro hnil
    unfold allVerts at hnil
    rw [List.flatten_eq_nil_iff] at hnil
    obtain ⟨p, ps, rfl⟩ := List.exists_cons_of_ne_nil h1
    exact h2 p (List.mem_cons_self p ps) (hnil p (List.mem_cons_self p ps))
  have hneU : (allVerts polys).map Prod.fst ≠ [] := by
    simpa [List.map_eq_nil_iff] using hne
  have hneV : (allVerts polys).map Prod.snd ≠ [] := by
    simpa [List.map_eq_nil_iff] using hne
  refine ⟨fun e => mem_boundaryEdges polys e, ?_, ?_, ?_, ?_, ?_⟩
  · intro q hq
    exact ⟨listMin_le_of_mem (List.mem_map_of_mem Prod.fst hq),
      listMax_ge_of_mem (List.mem_map_of_mem Prod.fst hq),
      listMin_le_of_mem (List.mem_map_of_mem Prod.snd hq),
      listMax_ge_of_mem (List.mem_map_of_mem Prod.snd hq)⟩
  · obtain ⟨q, hq, hqe⟩ := List.mem_map.mp (listMin_mem hneU)
    exact ⟨q, hq, hqe⟩
  · obtain ⟨q, hq, hqe⟩ := List.mem_map.mp (listMax_mem hneU)
    exact ⟨q, hq, hqe⟩
  · obtain ⟨q, hq, hqe⟩ := List.mem_map.mp (listMin_mem hneV)
    exact ⟨q, hq, hqe⟩
  · obtain ⟨q, hq, hqe⟩ := List.mem_map.mp (listMax_mem hneV)
    exact ⟨q, hq, hqe⟩

/-- Witness for C3 at a single concrete UV triangle. -/
theorem c3_boundary_and_bbox_witness :
    polysW ≠ [] ∧ (∀ p ∈ polysW, p ≠ []) ∧
    ((∀ e : UVPoint × UVPoint, e ∈ (extractBoundaryData polysW).bEdges ↔
        edgeCount polysW (keyOf e) = 1 ∧ firstDir polysW (keyOf e) = some e) ∧
     (∀ q ∈ allVerts polysW,
        (extractBoundaryData polysW).min_u ≤ q.1 ∧
        q.1 ≤ (extractBoundaryData polysW).max_u ∧
        (extractBoundaryData polysW).min_v ≤ q.2 ∧
        q.2 ≤ (extractBoundaryData polysW).max_v) ∧
     (∃ q ∈ allVerts polysW, q.1 = (extractBoundaryData polysW).min_u) ∧
     (∃ q ∈ allVerts polysW, q.1 = (extractBoundaryData polysW).max_u) ∧
     (∃ q ∈ allVerts polysW, q.2 = (extractBoundaryData polysW).min_v) ∧
     (∃ q ∈ allVerts polysW, q.2 = (extractBoundaryData polysW).max_v)) :=
  ⟨by decide, by decide, c3_boundary_and_bbox polysW (by decide) (by decide)⟩

/-- The option-valued minimum fold agrees with `listMin` once seeded. -/
theorem foldl_minRadStep_some (vs : List Vert) (c : ℚ) :
    vs.foldl minRadStep (some c) = some ((vs.map Vert.r).foldl min c) := by
  induction vs generalizing c with
  | nil => rfl
  | cons v vs ih =>
    rw [List.foldl_cons]
    have hstep : minRadStep (some c) v = some (min c v.r) := by
      show (if v.r < c then some v.r else some c) = some (min c v.r)
      rcases lt_or_ge v.r c with h | h
      · rw [if_pos h, min_eq_right h.le]
      · rw [if_neg (not_lt.mpr h), min_eq_left h]
    rw [hstep, ih, List.map_cons, List.foldl_cons]

/-- The minimum-radius scan over a nonempty vertex list computes the
minimum of the planar radii. -/
theorem minRad_cons (v : Vert) (vs : List Vert) :
    minRad (v :: vs) = some (listMin ((v :: vs).map Vert.r)) :=
  foldl_minRadStep_some vs v.r

/-- C8: an edge of the generated mesh is marked as a seam edge iff both
endpoints have `|z|` within the z-tolerance 0.5 of the bend plane and both
have planar radius within tolerance 1.0 of the global minimum planar
radius over all vertices (stated via the characterizing property of that
minimum: a lower bound of all radii that is attained). -/
theorem c8_seam_selection (v : Vert) (vs : List Vert) (a b : Vert) :
    seamEdge (v :: vs) a b = true ↔
      ∃ m : ℚ, (∀ w ∈ v :: vs, m ≤ w.r) ∧ (∃ w ∈ v :: vs, w.r = m) ∧
        |a.z| < 1 / 2 ∧ |b.z| < 1 / 2 ∧ |a.r - m| < 1 ∧ |b.r - m| < 1 := by
  have hse : seamEdge (v :: vs) a b =
      (decide (|a.z| < 1 / 2) && decide (|b.z| < 1 / 2) &&
        (decide (|a.r - listMin ((v :: vs).map Vert.r)| < 1) &&
          decide (|b.r - listMin ((v :: vs).map Vert.r)| < 1))) := by
    unfold seamEdge
    rw [minRad_cons]
  rw [hse]
  simp only [Bool.and_eq_true, decide_eq_true_eq]
  constructor
  · rintro ⟨⟨ha, hb⟩, har, hbr⟩
    refine ⟨listMin ((v :: vs).map Vert.r), ?_, ?_, ha, hb, har, hbr⟩
    · intro w hw
      exact listMin_le_of_mem (List.mem_map_of_mem Vert.r hw)
    · have hm := listMin_mem (l := (v :: vs).map Vert.r) (by simp)
      obtain ⟨w, hw, hwr⟩ := List.mem_map.mp hm
      exact ⟨w, hw, hwr⟩
  · rintro ⟨m, hlb, ⟨w, hw, hwr⟩, ha, hb, har, hbr⟩
    have hmeq : m = listMin ((v :: vs).map Vert.r) := by
      apply le_antisymm
      · have hm := listMin_mem (l := (v :: vs).map Vert.r) (by simp)
        obtain ⟨w1, hw1, hwr1⟩ := List.mem_map.mp hm
        calc m ≤ w1.r := hlb w1 hw1
          _ = _ := hwr1
      · calc listMin ((v :: vs).map Vert.r) ≤ w.r :=
              listMin_le_of_mem (List.mem_map_of_mem Vert.r hw)
          _ = m := hwr
    rw [← hmeq]
    exact ⟨⟨ha, hb⟩, har, hbr⟩

/-- Every byte of a rendered natural number is a decimal digit byte. -/
theorem natBytes_range {n x : ℕ} (hx : x ∈ natBytes n) : 48 ≤ x ∧ x < 58 := by
  unfold natBytes at hx
  by_cases h : n = 0
  · rw [if_pos h] at hx
    simp at hx
    omega
  · rw [if_neg h] at hx
    simp only [List.mem_map, List.mem_reverse] at hx
    obtain ⟨d, hd, rfl⟩ := hx
    have := Nat.digits_lt_base (by norm_num) hd
    omega

/-- Digit bytes never contain the `_` byte. -/
theorem natBytes_not95 (n : ℕ) : 95 ∉ natBytes n := fun h => by
  have := natBytes_range h
  omega

/-- Digit bytes never contain the `.` byte. -/
theorem natBytes_not46 (n : ℕ) : 46 ∉ natBytes n := fun h => by
  have := natBytes_range h
  omega

/-- A one-decimal rendering never contains the `_` byte. -/
theorem render1_not95 (z : ℕ) : 95 ∉ render1 z := by
  unfold render1
  intro h
  rcases List.mem_append.mp h with h | h
  · exact natBytes_not95 _ h
  · simp at h
    omega

/-- A formatted one-decimal value never contains the `_` byte. -/
theorem fmt1_not95 (q : ℚ) : 95 ∉ fmt1 q := render1_not95 _

/-- Splitting two list equations at a separator byte occurring in neither
prefix. -/
theorem append_sep_eq {x : ℕ} :
    ∀ {a b r1 r2 : List ℕ}, x ∉ a → x ∉ b →
      a ++ x :: r1 = b ++ x :: r2 → a = b ∧ r1 = r2 := by
  intro a
  induction a with
  | nil =>
    intro b r1 r2 _ hb h
    cases b with
    | nil =>
      simp only [List.nil_append] at h
      injection h with _ h2
      exact ⟨rfl, h2⟩
    | cons y bs =>
      simp only [List.nil_append, List.cons_append] at h
      injection h with h1 h2
      subst h1
      exact absurd (List.mem_cons_self x bs) hb
  | cons z as ih =>
    intro b r1 r2 ha hb h
    cases b with
    | nil =>
      simp only [List.cons_append, List.nil_append] at h
      injection h with h1 h2
      subst h1
      exact absurd (List.mem_cons_self z as) ha
    | cons y bs =>
      simp only [List.cons_append] at h
      injection h with h1 h2
      subst h1
      have ha2 : x ∉ as := fun hm => ha (List.mem_cons_of_mem _ hm)
      have hb2 : x ∉ bs := fun hm => hb (List.mem_cons_of_mem _ hm)
      obtain ⟨hab, hr⟩ := ih ha2 hb2 h2
      exact ⟨by rw [hab], hr⟩

/-- Decimal digit-byte rendering is injective. -/
theorem natBytes_inj : ∀ {m n : ℕ}, natBytes m = natBytes n → m = n := by
  have key : ∀ {n d : ℕ}, Nat.digits 10 n = [d] → d = 0 → n = 0 := by
    intro n d hd h0
    have hn := Nat.ofDigits_digits 10 n
    rw [hd, h0] at hn
    simpa [Nat.ofDigits] using hn.symm
  intro m n h
  unfold natBytes at h
  by_cases hm : m = 0 <;> by_cases hn : n = 0
  · exact hm.trans hn.symm
  · rw [if_pos hm, if_neg hn] at h
    exfalso
    have hlen := congrArg List.length h
    simp only [List.length_map, List.length_reverse, List.length_cons,
      List.length_nil] at hlen
    obtain ⟨d, hd⟩ := List.length_eq_one.mp hlen.symm
    rw [hd] at h
    simp only [List.reverse_cons, List.reverse_nil, List.nil_append,
      List.map_cons, List.map_nil] at h
    injection h with h1 _
    have h1b : (48 : ℕ) = 48 + d := h1
    exact hn (key hd (by omega))
  · rw [if_neg hm, if_pos hn] at h
    exfalso
    have hlen := congrArg List.length h
    simp only [List.length_map, List.length_reverse, List.length_cons,
      List.length_nil] at hlen
    obtain ⟨d, hd⟩ := List.length_eq_one.mp hlen
    rw [hd] at h
    simp only [List.reverse_cons, List.reverse_nil, List.nil_append,
      List.map_cons, List.map_nil] at h
    injection h with h1 _
    have h1b : 48 + d = (48 : ℕ) := h1
    exact hm (key hd (by omega))
  · rw [if_neg hm, if_neg hn] at h
    have hinj : Function.Injective (fun d : ℕ => 48 + d) := by
      intro a b hab
      have hab2 : 48 + a = 48 + b := hab
      omega
    have h2 := List.map_injective_iff.mpr hinj h
    have h3 := List.reverse_injective h2
    have h4 := congrArg (Nat.ofDigits 10) h3
    rw [Nat.ofDigits_digits, Nat.ofDigits_digits] at h4
    exact_mod_cast h4

/-- One-decimal rendering is injective in the scaled value. -/
theorem render1_inj {z1 z2 : ℕ} (h : render1 z1 = render1 z2) : z1 = z2 := by
  unfold render1 at h
  obtain ⟨h1, h2⟩ := append_sep_eq (natBytes_not46 _) (natBytes_not46 _) h
  have e1 := natBytes_inj h1
  injection h2 with h3 _
  omega

/-- Two-decimal rendering is injective in the scaled value. -/
theorem render2_inj {z1 z2 : ℕ} (h : render2 z1 = render2 z2) : z1 = z2 := by
  unfold render2 at h
  obtain ⟨h1, h2⟩ := append_sep_eq (natBytes_not46 _) (natBytes_not46 _) h
  have e1 := natBytes_inj h1
  injection h2 with h3 h4
  injection h4 with h5 _
  omega

/-- C9 counterexample: two distinct specs (diameters 10.01 mm and
10.04 mm, both printing as `10.0` at the one-decimal filename precision)
produce the identical output filename, so the filename does not encode the
five parameters injectively. -/
theorem c9_filename_collision :
    specCex1 ≠ specCex2 ∧ filenameOf specCex1 = filenameOf specCex2 := by
  constructor
  · have hne : specCex1.od ≠ specCex2.od := by
      show (1001 / 100 : ℚ) ≠ 1004 / 100
      norm_num
    exact fun h => hne (congrArg PipeSpec.od h)
  · show buildFilename (1001 / 100) (3 / 2) 5 10 (123 / 20) =
      buildFilename (1004 / 100) (3 / 2) 5 10 (123 / 20)
    have h1 : rhe ((1001 / 100 : ℚ) * 10) = 100 := by
      have hq : ((1001 / 100 : ℚ) * 10) = 1001 / 10 := by norm_num
      have hf : (⌊(1001 / 10 : ℚ)⌋ : ℤ) = 100 := by norm_num
      rw [hq]
      unfold rhe
      rw [hf]
      norm_num
    have h2 : rhe ((1004 / 100 : ℚ) * 10) = 100 := by
      have hq : ((1004 / 100 : ℚ) * 10) = 1004 / 10 := by norm_num
      have hf : (⌊(1004 / 10 : ℚ)⌋ : ℤ) = 100 := by norm_num
      rw [hq]
      unfold rhe
      rw [hf]
      norm_num
    unfold buildFilename fmt1
    rw [h1, h2]

/-- C9 amended: the filename is exactly as collision-prone as the rounded
parameter tuple: two parameter lists produce the same filename iff they
agree after fixed-point rounding (one decimal for diameter, multiplier and
overlap, two decimals for thickness, exact segment count).  In particular
specs whose rounded values differ always get distinct filenames, and specs
differing only below the printed precision collide. -/
theorem c9_filename_encodes_rounded_params (od clr : ℚ) (segs : ℕ)
    (ov mt : ℚ) (od1 clr1 : ℚ) (segs1 : ℕ) (ov1 mt1 : ℚ) :
    buildFilename od clr segs ov mt = buildFilename od1 clr1 segs1 ov1 mt1 ↔
      filenameCode od clr segs ov mt = filenameCode od1 clr1 segs1 ov1 mt1 := by
  constructor
  · intro h
    unfold buildFilename at h
    simp only [List.append_assoc] at h
    have h0 := List.append_cancel_left h
    simp only [clrTag, sTag, oTag, mtTag, List.cons_append, List.nil_append] at h0
    obtain ⟨hod, h1⟩ := append_sep_eq (fmt1_not95 od) (fmt1_not95 od1) h0
    simp only [List.cons.injEq, true_and] at h1
    obtain ⟨hclr, h2⟩ := append_sep_eq (fmt1_not95 clr) (fmt1_not95 clr1) h1
    simp only [List.cons.injEq, true_and] at h2
    obtain ⟨hsegs, h3⟩ := append_sep_eq (natBytes_not95 segs)
      (natBytes_not95 segs1) h2
    simp only [List.cons.injEq, true_and] at h3
    obtain ⟨hov, h4⟩ := append_sep_eq (fmt1_not95 ov) (fmt1_not95 ov1) h3
    simp only [List.cons.injEq, true_and] at h4
    simp only [fmt2, render2, pdfTag, List.cons_append, List.nil_append,
      List.append_assoc] at h4
    obtain ⟨hmtB, h5⟩ := append_sep_eq (natBytes_not46 _) (natBytes_not46 _) h4
    simp only [List.cons.injEq, and_true] at h5
    have hmt : (rhe (mt * 100)).toNat = (rhe (mt1 * 100)).toNat := by
      have e1 := natBytes_inj hmtB
      omega
    unfold fmt1 at hod hclr hov
    unfold filenameCode
    simp only [Prod.mk.injEq]
    exact ⟨render1_inj hod, render1_inj hclr, natBytes_inj hsegs,
      render1_inj hov, hmt⟩
  · intro h
    unfold filenameCode at h
    simp only [Prod.mk.injEq] at h
    obtain ⟨e1, e2, e3, e4, e5⟩ := h
    unfold buildFilename fmt1 fmt2
    rw [e1, e2, e3, e4, e5]
